import Mathlib

/-!
Verification of the workload-adaptive index advisor.

This file gives a shallow embedding of the core of the system: the
frequency tracker (`update_frequency_counter`), the index advisor
(`auto_manage_indexes`), the focus rotation (`rotate_focus_once`), the
SQL column/table extractor (`extract_columns`, `extract_table`) and the
execution loop step (`tick`), together with theorems about them.

The SQLite store is modelled as follows: the `attribute_frequency`
table is a list of rows in insertion (rowid) order, and the index
catalog (`sqlite_master` restricted to non-system indexes) is a
`Finset String` of index names.  `ORDER BY frequency DESC` is modelled
as a stable insertion sort on the row list, matching the deterministic
order SQLite produces for a fixed table state.  DDL is modelled by its
effect on the catalog set: `CREATE INDEX IF NOT EXISTS n` inserts `n`,
`DROP INDEX IF EXISTS n` erases `n`.

Python regular expressions are embedded as deterministic scanners over
`List Char`; for the five fixed patterns of the source the greedy and
lazy sub-matchers are deterministic (the character classes of adjacent
pieces are disjoint), so the scanners compute exactly the captures of
`re.search`.  Python's `set()` has no specified order, so theorems
about the column extractor speak about `List.toFinset` of its result.
-/

/-- A row of the `attribute_frequency` table. -/
structure FreqRow where
  table_name : String
  column_name : String
  frequency : Nat
deriving DecidableEq, Repr

/-- The generated index name, `f"idx_{table_name}_{column_name}"`. -/
def index_name (t c : String) : String :=
  "idx_" ++ t ++ "_" ++ c

/-- The index name of a frequency row. -/
def nameOf (r : FreqRow) : String :=
  index_name r.table_name r.column_name

/-- Descending frequency order, the sort key of
`SELECT ... ORDER BY frequency DESC`. -/
def freqDescRel (a b : FreqRow) : Prop :=
  b.frequency ≤ a.frequency

instance : DecidableRel freqDescRel :=
  fun a b => inferInstanceAs (Decidable (b.frequency ≤ a.frequency))

instance : IsTotal FreqRow freqDescRel :=
  ⟨fun a b => Nat.le_total b.frequency a.frequency⟩

instance : IsTrans FreqRow freqDescRel :=
  ⟨fun _ _ _ hab hbc => Nat.le_trans hbc hab⟩

/-- The fetch `SELECT table_name, column_name, frequency FROM
attribute_frequency ORDER BY frequency DESC`, as a stable sort of the
stored rows. -/
def sortByFrequencyDesc (rows : List FreqRow) : List FreqRow :=
  List.insertionSort freqDescRel rows

/-- Result of one `auto_manage_indexes` call: the catalog after the
call, and the names passed to `CREATE INDEX` / `DROP INDEX`. -/
structure ReconcileResult where
  catalog : Finset String
  created : List String
  dropped : List String
deriving DecidableEq

/-- The promote loop: for each row of `top_three`, create the index iff
its name is absent from the snapshot `existing_indexes`.  The loop
tests the snapshot, not the live catalog. -/
def promoteLoop (snapshot : Finset String) (rows : List FreqRow)
    (st : Finset String × List String) : Finset String × List String :=
  rows.foldl
    (fun acc r =>
      let n := nameOf r
      if n ∈ snapshot then acc else (insert n acc.1, acc.2 ++ [n]))
    st

/-- The evict loop: for each row of `bottom_six`, drop the index iff its
name is present in the snapshot `existing_indexes`. -/
def evictLoop (snapshot : Finset String) (rows : List FreqRow)
    (st : Finset String × List String) : Finset String × List String :=
  rows.foldl
    (fun acc r =>
      let n := nameOf r
      if n ∈ snapshot then (acc.1.erase n, acc.2 ++ [n]) else acc)
    st

/-- `DBManager.auto_manage_indexes`: fetch all rows ordered by
descending frequency; if fewer than 3, return; otherwise create indexes
for the top 3 and drop indexes for the bottom 6, testing each against
the snapshot of the catalog taken once before the promote phase. -/
def auto_manage_indexes (freqTable : List FreqRow) (existing : Finset String) :
    ReconcileResult :=
  let all_cols := sortByFrequencyDesc freqTable
  if all_cols.length < 3 then ⟨existing, [], []⟩
  else
    let top_three := all_cols.take 3
    let bottom_six := all_cols.drop (all_cols.length - 6)
    let p := promoteLoop existing top_three (existing, [])
    let e := evictLoop existing bottom_six (p.1, [])
    ⟨e.1, p.2, e.2⟩

/-- Key equality test of the frequency UPDATE/INSERT statements,
`WHERE table_name = ? AND column_name = ?`. -/
def keyMatchesB (t c : String) (r : FreqRow) : Bool :=
  r.table_name == t && r.column_name == c

/-- Key equality as a proposition. -/
def keyMatches (t c : String) (r : FreqRow) : Prop :=
  r.table_name = t ∧ r.column_name = c

instance (t c : String) (r : FreqRow) : Decidable (keyMatches t c r) :=
  inferInstanceAs (Decidable (_ ∧ _))

/-- One row bumped by the UPDATE statement when its key matches. -/
def bumpIf (t c : String) (r : FreqRow) : FreqRow :=
  if keyMatchesB t c r then ⟨r.table_name, r.column_name, r.frequency + 1⟩ else r

/-- The per-column body of `update_frequency_counter`: `UPDATE
attribute_frequency SET frequency = frequency + 1 WHERE table_name = ?
AND column_name = ?`; if the UPDATE touched zero rows, `INSERT ...
VALUES (?, ?, 1)`. -/
def upsertFrequency (tbl : List FreqRow) (t c : String) : List FreqRow :=
  let updated := tbl.map (bumpIf t c)
  if (tbl.filter (keyMatchesB t c)).length = 0 then updated ++ [⟨t, c, 1⟩]
  else updated

/-- The `for col in cols` loop of `update_frequency_counter` — the
tracker operation `record(table, columns)`. -/
def recordColumns (tbl : List FreqRow) (t : String) (cols : List String) :
    List FreqRow :=
  cols.foldl (fun acc c => upsertFrequency acc t c) tbl

/-- `record(t,[c])` called `n` times sequentially. -/
def recordNTimes (tbl : List FreqRow) (t c : String) : Nat → List FreqRow
  | 0 => tbl
  | n + 1 => recordColumns (recordNTimes tbl t c n) t [c]

/-- The frequency stored for a key: the sum of the `frequency` fields of
the matching rows (`0` when the row is absent; under the unique index
on `(table_name, column_name)` at most one row matches). -/
def freqOf (tbl : List FreqRow) (t c : String) : Nat :=
  ((tbl.filter (keyMatchesB t c)).map FreqRow.frequency).sum

/-- The shared store state the record / reconcile operations act on:
the frequency table and the index catalog. -/
structure SysState where
  freq : List FreqRow
  catalog : Finset String

/-- One core operation on the shared store: a `record(t, cols)` call of
the frequency tracker, or one `auto_manage_indexes` reconciliation
(which reads the frequency table and rewrites only the catalog). -/
inductive CoreStep : SysState → SysState → Prop where
  | record (s : SysState) (t : String) (cols : List String) :
      CoreStep s ⟨recordColumns s.freq t cols, s.catalog⟩
  | reconcile (s : SysState) :
      CoreStep s ⟨s.freq, (auto_manage_indexes s.freq s.catalog).catalog⟩

/-- The statically declared candidate columns of `customers`. -/
def CUSTOMER_COLS : List String :=
  ["name", "email", "city", "join_date", "id"]

/-- The statically declared candidate columns of `orders`. -/
def ORDER_COLS : List String :=
  ["customer_id", "order_date", "amount", "status", "id"]

/-- One rotation step of a focus cycle:
`cycle = cycle[1:] + cycle[:1]`. -/
def rotateOnce {α : Type} (l : List α) : List α :=
  l.drop 1 ++ l.take 1

/-- The generator's rotating state: the two cycles and the hot/cold
focus pair derived from their head and last element. -/
structure GenState where
  customer_cycle : List String
  order_cycle : List String
  customers_most : Option String
  customers_least : Option String
  orders_most : Option String
  orders_least : Option String

/-- `QueryGenerator.rotate_focus_once`: rotate both cycles by one
position and refresh the hot (`cycle[0]`) and cold (`cycle[-1]`)
focus columns. -/
def rotate_focus_once (s : GenState) : GenState :=
  let cc := rotateOnce s.customer_cycle
  let oc := rotateOnce s.order_cycle
  { customer_cycle := cc
    order_cycle := oc
    customers_most := cc.head?
    customers_least := cc.getLast?
    orders_most := oc.head?
    orders_least := oc.getLast? }

/-- Python `\s` on the inputs of this system (ASCII whitespace). -/
def isPyWs (c : Char) : Bool :=
  c == ' ' || c == '\t' || c == '\n' || c == '\r' || c == '\x0b' || c == '\x0c'

/-- Python `\w` on ASCII: letters, digits and underscore. -/
def isWordChar (c : Char) : Bool :=
  c.isAlphanum || c == '_'

/-- The class `[a-zA-Z_]`. -/
def isIdentStart (c : Char) : Bool :=
  c.isAlpha || c == '_'

/-- Keyword literals of the regular expressions, as character lists. -/
def kwINSERT : List Char := ['I', 'N', 'S', 'E', 'R', 'T']

def kwINTO : List Char := ['I', 'N', 'T', 'O']

def kwUPDATE : List Char := ['U', 'P', 'D', 'A', 'T', 'E']

def kwSET : List Char := ['S', 'E', 'T']

def kwSELECT : List Char := ['S', 'E', 'L', 'E', 'C', 'T']

def kwFROM : List Char := ['F', 'R', 'O', 'M']

def kwWHERE : List Char := ['W', 'H', 'E', 'R', 'E']

def kwORDER : List Char := ['O', 'R', 'D', 'E', 'R']

def kwBY : List Char := ['B', 'Y']

def kwGROUP : List Char := ['G', 'R', 'O', 'U', 'P']

def kwLIMIT : List Char := ['L', 'I', 'M', 'I', 'T']

def kwDESC : List Char := ['D', 'E', 'S', 'C']

def kwASC : List Char := ['A', 'S', 'C']

def kwJOIN : List Char := ['J', 'O', 'I', 'N']

/-- Match a literal, returning the rest of the input. -/
def dropLit : List Char → List Char → Option (List Char)
  | [], s => some s
  | _ :: _, [] => none
  | p :: ps, c :: cs => if c = p then dropLit ps cs else none

/-- Match a literal case-insensitively (`re.IGNORECASE` on ASCII). -/
def dropLitCI : List Char → List Char → Option (List Char)
  | [], s => some s
  | _ :: _, [] => none
  | p :: ps, c :: cs => if c.toUpper = p then dropLitCI ps cs else none

/-- Greedy `\s+`. -/
def wsPlus : List Char → Option (List Char)
  | [] => none
  | c :: cs => if isPyWs c then some (cs.dropWhile isPyWs) else none

/-- Greedy `\s*`. -/
def wsStar (s : List Char) : List Char :=
  s.dropWhile isPyWs

/-- Greedy `\w+`. -/
def wordPlus : List Char → Option (List Char)
  | [] => none
  | c :: cs => if isWordChar c then some (cs.dropWhile isWordChar) else none

/-- Greedy `([a-zA-Z_][a-zA-Z0-9_]*)`: the captured identifier and the
rest of the input. -/
def identMatch : List Char → Option (List Char × List Char)
  | [] => none
  | c :: cs =>
    if isIdentStart c then some (c :: cs.takeWhile isWordChar, cs.dropWhile isWordChar)
    else none

/-- `re.search`: try the matcher at each position of the input, left to
right (the position at the very end included). -/
def searchAux {α : Type} (m : List Char → Option α) : List Char → Option α
  | [] => m []
  | c :: cs =>
    match m (c :: cs) with
    | some r => some r
    | none => searchAux m cs

/-- Where `$` matches without `re.MULTILINE`: at the end of the input or
just before one trailing newline. -/
def atEnd : List Char → Bool
  | [] => true
  | ['\n'] => true
  | _ => false

/-- Lazy `(.*?)` up to a delimiter: the shortest newline-free run of
characters after which the delimiter (or, when `allowEnd` is set, `$`)
matches. -/
def lazyCapture (delim : List Char → Bool) (allowEnd : Bool) (acc : List Char) :
    List Char → Option (List Char)
  | [] => if delim [] || (allowEnd && atEnd []) then some acc.reverse else none
  | c :: cs =>
    if delim (c :: cs) || (allowEnd && atEnd (c :: cs)) then some acc.reverse
    else if c = '\n' then none else lazyCapture delim allowEnd (c :: acc) cs

/-- Lazy `(.*?)` up to a literal `)`. -/
def captureUntilRParen (acc : List Char) : List Char → Option (List Char)
  | [] => none
  | c :: cs =>
    if c = ')' then some acc.reverse
    else if c = '\n' then none else captureUntilRParen (c :: acc) cs

/-- The delimiter `\s+WHERE`. -/
def delimWhere (s : List Char) : Bool :=
  ((wsPlus s).bind (dropLit kwWHERE)).isSome

/-- The delimiter `\s+FROM`. -/
def delimFrom (s : List Char) : Bool :=
  ((wsPlus s).bind (dropLit kwFROM)).isSome

/-- The delimiter `\s+ORDER|\s+GROUP|\s+LIMIT`. -/
def delimOrderGroupLimit (s : List Char) : Bool :=
  match wsPlus s with
  | none => false
  | some s1 =>
    (dropLit kwORDER s1).isSome || (dropLit kwGROUP s1).isSome ||
      (dropLit kwLIMIT s1).isSome

/-- The delimiter `\s+DESC|\s+ASC|\s+LIMIT`. -/
def delimDescAscLimit (s : List Char) : Bool :=
  match wsPlus s with
  | none => false
  | some s1 =>
    (dropLit kwDESC s1).isSome || (dropLit kwASC s1).isSome ||
      (dropLit kwLIMIT s1).isSome

/-- `INSERT\s+INTO\s+\w+\s*\((.*?)\)` at one position. -/
def matchInsertAt (s : List Char) : Option (List Char) := do
  let s1 ← dropLit kwINSERT s
  let s2 ← wsPlus s1
  let s3 ← dropLit kwINTO s2
  let s4 ← wsPlus s3
  let s5 ← wordPlus s4
  let s6 ← dropLit ['('] (wsStar s5)
  captureUntilRParen [] s6

/-- `UPDATE\s+\w+\s+SET\s+(.*?)(?:\s+WHERE|$)` at one position. -/
def matchUpdateAt (s : List Char) : Option (List Char) := do
  let s1 ← dropLit kwUPDATE s
  let s2 ← wsPlus s1
  let s3 ← wordPlus s2
  let s4 ← wsPlus s3
  let s5 ← dropLit kwSET s4
  let s6 ← wsPlus s5
  lazyCapture delimWhere true [] s6

/-- `SELECT\s+(.*?)\s+FROM` at one position. -/
def matchSelectAt (s : List Char) : Option (List Char) := do
  let s1 ← dropLit kwSELECT s
  let s2 ← wsPlus s1
  lazyCapture delimFrom false [] s2

/-- `WHERE\s+(.*?)(?:\s+ORDER|\s+GROUP|\s+LIMIT|$)` at one position. -/
def matchWhereAt (s : List Char) : Option (List Char) := do
  let s1 ← dropLit kwWHERE s
  let s2 ← wsPlus s1
  lazyCapture delimOrderGroupLimit true [] s2

/-- `ORDER\s+BY\s+(.*?)(?:\s+DESC|\s+ASC|\s+LIMIT|$)` at one position. -/
def matchOrderByAt (s : List Char) : Option (List Char) := do
  let s1 ← dropLit kwORDER s
  let s2 ← wsPlus s1
  let s3 ← dropLit kwBY s2
  let s4 ← wsPlus s3
  lazyCapture delimDescAscLimit true [] s4

/-- `(?:FROM|INTO|UPDATE|JOIN)\s+([a-zA-Z_][a-zA-Z0-9_]*)` at one
position, case-insensitively (the four keywords start with distinct
characters, so at most one alternative applies). -/
def matchTableAt (s : List Char) : Option (List Char) := do
  let s1 ←
    match dropLitCI kwFROM s with
    | some r => some r
    | none =>
      match dropLitCI kwINTO s with
      | some r => some r
      | none =>
        match dropLitCI kwUPDATE s with
        | some r => some r
        | none => dropLitCI kwJOIN s
  let s2 ← wsPlus s1
  let p ← identMatch s2
  some p.1

/-- The split class `[,\s]+`. -/
def sepCommaWs (c : Char) : Bool :=
  c == ',' || isPyWs c

/-- The split class `[,\s=]+`. -/
def sepCommaWsEq (c : Char) : Bool :=
  c == ',' || isPyWs c || c == '='

/-- The split class `[,\s=<>!]+`. -/
def sepWhereClass (c : Char) : Bool :=
  c == ',' || isPyWs c || c == '=' || c == '<' || c == '>' || c == '!'

/-- Helper of `tokensBy`: accumulate the current token in reverse. -/
def tokensAux (isSep : Char → Bool) (cur : List Char) : List Char → List (List Char)
  | [] => if cur.isEmpty then [] else [cur.reverse]
  | c :: cs =>
    if isSep c then
      if cur.isEmpty then tokensAux isSep [] cs
      else cur.reverse :: tokensAux isSep [] cs
    else tokensAux isSep (c :: cur) cs

/-- `re.split(r"[class]+", s)` with the empty pieces removed — the code
filters them out with `if col` right after splitting. -/
def tokensBy (isSep : Char → Bool) (s : List Char) : List (List Char) :=
  tokensAux isSep [] s

/-- Python `str.strip()`. -/
def pyStrip (s : List Char) : List Char :=
  ((s.dropWhile isPyWs).reverse.dropWhile isPyWs).reverse

/-- Python `s.split(".")[-1]`: the part after the last dot. -/
def afterLastDot (s : List Char) : List Char :=
  (s.reverse.takeWhile (fun c => !(c == '.'))).reverse

/-- Find the first `)` not preceded by a newline; return what follows. -/
def splitAtCloseParen : List Char → Option (List Char)
  | [] => none
  | c :: cs =>
    if c = ')' then some cs
    else if c = '\n' then none else splitAtCloseParen cs

/-- `re.sub(r"\(.*?\)", "", s)`: remove every parenthesized group whose
body is newline-free; an unclosed `(` is kept. -/
def removeParenGroups : List Char → List Char
  | [] => []
  | c :: cs =>
    if c = '(' then
      match h : splitAtCloseParen cs with
      | some rest => removeParenGroups rest
      | none => c :: removeParenGroups cs
    else c :: removeParenGroups cs
termination_by s => s.length
decreasing_by
  · have key : ∀ (l r : List Char), splitAtCloseParen l = some r → r.length < l.length := by
      intro l
      induction l with
      | nil => intro r hr; simp [splitAtCloseParen] at hr
      | cons a as ih =>
        intro r hr
        simp only [splitAtCloseParen] at hr
        by_cases ha : a = ')'
        · rw [if_pos ha] at hr
          cases hr
          simp
        · rw [if_neg ha] at hr
          by_cases hn : a = '\n'
          · rw [if_pos hn] at hr; cases hr
          · rw [if_neg hn] at hr
            exact Nat.lt_trans (ih r hr) (by simp)
    have := key cs rest h
    simp
    omega
  · simp
  · simp

/-- The fixed keyword stoplist of `extract_columns`. -/
def KEYWORDS : List String :=
  ["SELECT", "FROM", "WHERE", "AND", "OR", "AS", "ON", "IN",
   "VALUES", "SET", "BY", "GROUP", "ORDER", "COUNT", "SUM",
   "AVG", "MAX", "MIN", "DESC", "ASC"]

/-- Python `s.upper()` on a token. -/
def tokUpper (s : List Char) : List Char :=
  s.map Char.toUpper

/-- Python `s.lower()` on a token. -/
def tokLower (s : List Char) : List Char :=
  s.map Char.toLower

/-- The INSERT block of `extract_columns`. -/
def insertBlockCols (u : List Char) : List String :=
  match searchAux matchInsertAt u with
  | none => []
  | some cap =>
    (tokensBy sepCommaWs cap).filterMap fun tok =>
      if String.mk (tokUpper tok) ∈ KEYWORDS then none
      else some (String.mk (tokLower tok))

/-- The UPDATE block of `extract_columns`. -/
def updateBlockCols (u : List Char) : List String :=
  match searchAux matchUpdateAt u with
  | none => []
  | some cap =>
    (tokensBy sepCommaWsEq cap).filterMap fun tok =>
      if String.mk (tokUpper tok) ∈ KEYWORDS then none
      else some (String.mk (tokLower tok))

/-- The SELECT block of `extract_columns` (skipped entirely when the
select list is exactly `*`). -/
def selectBlockCols (u : List Char) : List String :=
  match searchAux matchSelectAt u with
  | none => []
  | some cap =>
    if pyStrip cap = ['*'] then []
    else
      (tokensBy sepCommaWs cap).filterMap fun tok =>
        let col := removeParenGroups (afterLastDot tok)
        if col.isEmpty then none
        else if String.mk (tokUpper col) ∈ KEYWORDS then none
        else some (String.mk (tokLower col))

/-- The WHERE block of `extract_columns`. -/
def whereBlockCols (u : List Char) : List String :=
  match searchAux matchWhereAt u with
  | none => []
  | some cap =>
    (tokensBy sepWhereClass cap).filterMap fun tok =>
      let col := afterLastDot tok
      if col.isEmpty then none
      else if String.mk (tokUpper col) ∈ KEYWORDS then none
      else some (String.mk (tokLower col))

/-- The ORDER BY block of `extract_columns`. -/
def orderBlockCols (u : List Char) : List String :=
  match searchAux matchOrderByAt u with
  | none => []
  | some cap =>
    (tokensBy sepCommaWs cap).filterMap fun tok =>
      let col := afterLastDot tok
      if col.isEmpty then none
      else if String.mk (tokUpper col) ∈ KEYWORDS then none
      else some (String.mk (tokLower col))

/-- Python `str.isdigit()` on ASCII. -/
def pyIsDigit (s : String) : Bool :=
  !s.data.isEmpty && s.data.all Char.isDigit

/-- `extract_columns`: run the five clause blocks on the uppercased SQL,
then keep the non-empty, non-numeric results and deduplicate.  Python
returns `list(set(...))` in unspecified order; theorems therefore only
use the result as a set. -/
def extract_columns (sql : String) : List String :=
  let u := sql.data.map Char.toUpper
  let cols := insertBlockCols u ++ updateBlockCols u ++ selectBlockCols u ++
    whereBlockCols u ++ orderBlockCols u
  (cols.filter fun c => !(c == "") && !pyIsDigit c).dedup

/-- `extract_table`: the first identifier following FROM/INTO/UPDATE/JOIN,
lower-cased; `"unknown"` when there is none. -/
def extract_table (sql : String) : String :=
  match searchAux matchTableAt sql.data with
  | some ident => String.mk (ident.map Char.toLower)
  | none => "unknown"

/-- `DBManager.update_frequency_counter`: extract table and columns and
bail out when either extraction fails, otherwise upsert each column. -/
def update_frequency_counter (tbl : List FreqRow) (sql : String) : List FreqRow :=
  let t := extract_table sql
  let cols := extract_columns sql
  if cols = [] ∨ t = "unknown" then tbl
  else recordColumns tbl t cols

/-- The state a `MetricsSimulator.tick` call touches: the frequency
table, the statements executed against the store, and the query log. -/
structure SimState where
  freq : List FreqRow
  executed : List String
  queryLog : List String

/-- One `tick` on a generated statement (rendered SQL), with the store
reachable: execute it, feed the rendered SQL to the frequency counter,
and append the log entry. -/
def tick (s : SimState) (sql : String) : SimState :=
  { freq := update_frequency_counter s.freq sql
    executed := s.executed ++ [sql]
    queryLog := s.queryLog ++ [sql] }

/-- The seeded frequency table of the reconciliation scenario. -/
def seedFrequencies : List FreqRow :=
  [⟨"orders", "status", 50⟩, ⟨"orders", "amount", 40⟩,
   ⟨"customers", "city", 35⟩, ⟨"customers", "email", 2⟩,
   ⟨"orders", "id", 1⟩, ⟨"customers", "id", 1⟩, ⟨"customers", "name", 1⟩]

/-- A three-row frequency table on which promote and evict windows
fully overlap. -/
def threeRows : List FreqRow :=
  [⟨"t", "a", 3⟩, ⟨"t", "b", 2⟩, ⟨"t", "c", 1⟩]

/-- A nine-row frequency table on which promote and evict windows are
disjoint. -/
def nineRows : List FreqRow :=
  [⟨"t", "c1", 9⟩, ⟨"t", "c2", 8⟩, ⟨"t", "c3", 7⟩, ⟨"t", "c4", 6⟩,
   ⟨"t", "c5", 5⟩, ⟨"t", "c6", 4⟩, ⟨"t", "c7", 3⟩, ⟨"t", "c8", 2⟩,
   ⟨"t", "c9", 1⟩]

/-- Index names of the promote window (top three by frequency). -/
def topNames (freqTable : List FreqRow) : List String :=
  ((sortByFrequencyDesc freqTable).take 3).map nameOf

/-- Index names of the evict window (bottom six by frequency). -/
def bottomNames (freqTable : List FreqRow) : List String :=
  let l := sortByFrequencyDesc freqTable
  (l.drop (l.length - 6)).map nameOf

/-! ### Closed forms of the promote and evict loops -/

theorem promoteLoop_cons (snap : Finset String) (r : FreqRow) (rs : List FreqRow)
    (cat : Finset String) (acc : List String) :
    promoteLoop snap (r :: rs) (cat, acc) =
      if nameOf r ∈ snap then promoteLoop snap rs (cat, acc)
      else promoteLoop snap rs (insert (nameOf r) cat, acc ++ [nameOf r]) := by
  by_cases h : nameOf r ∈ snap <;> simp [promoteLoop, h]

theorem evictLoop_cons (snap : Finset String) (r : FreqRow) (rs : List FreqRow)
    (cat : Finset String) (acc : List String) :
    evictLoop snap (r :: rs) (cat, acc) =
      if nameOf r ∈ snap then evictLoop snap rs (cat.erase (nameOf r), acc ++ [nameOf r])
      else evictLoop snap rs (cat, acc) := by
  by_cases h : nameOf r ∈ snap <;> simp [evictLoop, h]

theorem promoteLoop_eq (snap : Finset String) (rows : List FreqRow)
    (cat : Finset String) (acc : List String) :
    promoteLoop snap rows (cat, acc) =
      (cat ∪ ((rows.map nameOf).filter fun n => decide (n ∉ snap)).toFinset,
       acc ++ (rows.map nameOf).filter fun n => decide (n ∉ snap)) := by
  induction rows generalizing cat acc with
  | nil => simp [promoteLoop]
  | cons r rs ih =>
    rw [promoteLoop_cons]
    by_cases h : nameOf r ∈ snap
    · rw [if_pos h, ih]
      simp [h]
    · rw [if_neg h, ih]
      refine congrArg₂ Prod.mk ?_ ?_
      · simp [h, Finset.insert_union]
      · simp [h]

theorem evictLoop_eq (snap : Finset String) (rows : List FreqRow)
    (cat : Finset String) (acc : List String) :
    evictLoop snap rows (cat, acc) =
      (cat \ ((rows.map nameOf).filter fun n => decide (n ∈ snap)).toFinset,
       acc ++ (rows.map nameOf).filter fun n => decide (n ∈ snap)) := by
  induction rows generalizing cat acc with
  | nil => simp [evictLoop]
  | cons r rs ih =>
    rw [evictLoop_cons]
    by_cases h : nameOf r ∈ snap
    · rw [if_pos h, ih]
      refine congrArg₂ Prod.mk ?_ ?_
      · ext x
        simp only [List.map_cons, List.filter_cons, h, decide_True, eq_self_iff_true, if_pos,
          List.toFinset_cons, Finset.mem_sdiff, Finset.mem_erase, Finset.mem_insert]
        tauto
      · simp [h]
    · rw [if_neg h, ih]
      simp [h]

theorem auto_manage_eq (freqTable : List FreqRow) (existing : Finset String)
    (h3 : ¬ freqTable.length < 3) :
    auto_manage_indexes freqTable existing =
      ⟨(existing ∪ ((topNames freqTable).filter fun n => decide (n ∉ existing)).toFinset)
          \ ((bottomNames freqTable).filter fun n => decide (n ∈ existing)).toFinset,
       (topNames freqTable).filter fun n => decide (n ∉ existing),
       (bottomNames freqTable).filter fun n => decide (n ∈ existing)⟩ := by
  have hlen : (sortByFrequencyDesc freqTable).length = freqTable.length :=
    (List.perm_insertionSort freqDescRel freqTable).length_eq
  unfold auto_manage_indexes
  rw [if_neg (by rw [hlen]; exact h3)]
  simp only [promoteLoop_eq, evictLoop_eq]
  rfl

/-- C6: with fewer than 3 rows in the frequency table, one
`auto_manage_indexes` call performs zero DDL and leaves the index
catalog exactly as it was. -/
theorem c6_fewer_than_three_rows_no_ddl (freqTable : List FreqRow)
    (existing : Finset String) (h : freqTable.length < 3) :
    auto_manage_indexes freqTable existing = ⟨existing, [], []⟩ := by
  have hlen : (sortByFrequencyDesc freqTable).length = freqTable.length :=
    (List.perm_insertionSort freqDescRel freqTable).length_eq
  unfold auto_manage_indexes
  rw [if_pos (by rw [hlen]; exact h)]

theorem c6_witness :
    (([⟨"t", "a", 1⟩, ⟨"t", "b", 2⟩] : List FreqRow).length < 3) ∧
      auto_manage_indexes [⟨"t", "a", 1⟩, ⟨"t", "b", 2⟩] {"idx_t_a"} =
        ⟨{"idx_t_a"}, [], []⟩ :=
  ⟨by decide, c6_fewer_than_three_rows_no_ddl _ _ (by decide)⟩

/-- C10: the index catalog is snapshotted once, before the promote
phase, so an index the promote phase creates is never dropped by the
evict phase of the same call and survives into the final catalog, even
when its row lies in both windows. -/
theorem c10_created_never_dropped_same_call (freqTable : List FreqRow)
    (existing : Finset String) (n : String)
    (hc : n ∈ (auto_manage_indexes freqTable existing).created) :
    n ∉ (auto_manage_indexes freqTable existing).dropped ∧
      n ∈ (auto_manage_indexes freqTable existing).catalog := by
  by_cases h3 : freqTable.length < 3
  · rw [c6_fewer_than_three_rows_no_ddl _ _ h3] at hc
    simp at hc
  · rw [auto_manage_eq _ _ h3] at hc ⊢
    simp only [List.mem_filter, decide_eq_true_eq] at hc
    obtain ⟨hT, hnotin⟩ := hc
    constructor
    · intro hd
      simp only [List.mem_filter, decide_eq_true_eq] at hd
      exact hnotin hd.2
    · simp only [Finset.mem_sdiff, Finset.mem_union, List.mem_toFinset, List.mem_filter,
        decide_eq_true_eq]
      refine ⟨Or.inr ⟨hT, hnotin⟩, ?_⟩
      intro hb
      exact hnotin hb.2

theorem c10_witness :
    "idx_t_b" ∈ (auto_manage_indexes threeRows {"idx_t_a"}).created ∧
      "idx_t_b" ∉ (auto_manage_indexes threeRows {"idx_t_a"}).dropped ∧
      "idx_t_b" ∈ (auto_manage_indexes threeRows {"idx_t_a"}).catalog := by
  refine ⟨by decide, ?_⟩
  exact c10_created_never_dropped_same_call threeRows {"idx_t_a"} "idx_t_b" (by decide)

/-- C2 (counterexample): on a three-row frequency table the promote and
evict windows overlap, and a second `auto_manage_indexes` call with no
intervening frequency change performs DDL again — it re-creates the
index the first call dropped and drops the two it created. -/
theorem c2_counterexample :
    (auto_manage_indexes threeRows
        (auto_manage_indexes threeRows {"idx_t_a"}).catalog).created = ["idx_t_a"] ∧
      (auto_manage_indexes threeRows
          (auto_manage_indexes threeRows {"idx_t_a"}).catalog).dropped =
        ["idx_t_b", "idx_t_c"] := by
  decide

/-- C2 (amended): a second `auto_manage_indexes` call with no
intervening frequency change performs zero DDL whenever the promote and
evict windows are disjoint as index-name sets — in particular whenever
the frequency table has at least 9 rows with collision-free index
names; with overlapping windows the calls can oscillate. -/
theorem c2_amended_idempotent_when_disjoint (freqTable : List FreqRow)
    (existing : Finset String)
    (hdisj : ∀ n ∈ topNames freqTable, n ∉ bottomNames freqTable) :
    (auto_manage_indexes freqTable
        (auto_manage_indexes freqTable existing).catalog).created = [] ∧
      (auto_manage_indexes freqTable
          (auto_manage_indexes freqTable existing).catalog).dropped = [] := by
  by_cases h3 : freqTable.length < 3
  · rw [c6_fewer_than_three_rows_no_ddl _ _ h3,
      c6_fewer_than_three_rows_no_ddl _ _ h3]
    exact ⟨rfl, rfl⟩
  · rw [auto_manage_eq _ _ h3, auto_manage_eq _ _ h3]
    constructor
    · rw [List.filter_eq_nil_iff]
      intro n hn
      simp only [decide_eq_true_eq, not_not]
      rw [Finset.mem_sdiff]
      constructor
      · rw [Finset.mem_union]
        by_cases he : n ∈ existing
        · exact Or.inl he
        · refine Or.inr ?_
          rw [List.mem_toFinset, List.mem_filter]
          exact ⟨hn, by simpa using he⟩
      · rw [List.mem_toFinset, List.mem_filter]
        rintro ⟨hb, -⟩
        exact hdisj n hn hb
    · rw [List.filter_eq_nil_iff]
      intro n hn
      simp only [decide_eq_true_eq]
      rw [Finset.mem_sdiff, Finset.mem_union, List.mem_toFinset, List.mem_toFinset]
      rintro ⟨hu, hnb⟩
      rcases hu with he | ht
      · apply hnb
        rw [List.mem_filter]
        exact ⟨hn, by simpa using he⟩
      · rw [List.mem_filter] at ht
        exact hdisj n ht.1 hn

theorem c2_amended_witness :
    (∀ n ∈ topNames nineRows, n ∉ bottomNames nineRows) ∧
      (auto_manage_indexes nineRows
          (auto_manage_indexes nineRows ∅).catalog).created = [] ∧
      (auto_manage_indexes nineRows
          (auto_manage_indexes nineRows ∅).catalog).dropped = [] :=
  ⟨by decide, c2_amended_idempotent_when_disjoint nineRows ∅ (by decide)⟩

/-! ### The seeded reconciliation scenario -/

theorem sorted_perm_eq_cons (l : List FreqRow) (r : FreqRow) (rs : List FreqRow)
    (hp : l.Perm (r :: rs)) (hs : l.Sorted freqDescRel)
    (hlt : ∀ x ∈ rs, x.frequency < r.frequency) :
    ∃ t, l = r :: t ∧ t.Perm rs ∧ t.Sorted freqDescRel := by
  cases l with
  | nil =>
    have := hp.length_eq
    simp at this
  | cons h tl =>
    have hsorted := List.sorted_cons.mp hs
    have hmem : h ∈ r :: rs := hp.subset (List.mem_cons_self h tl)
    rcases List.mem_cons.mp hmem with he | hin
    · subst he
      exact ⟨tl, rfl, hp.cons_inv, hsorted.2⟩
    · exfalso
      have hr : r ∈ h :: tl := hp.symm.subset (List.mem_cons_self r rs)
      have hhlt : h.frequency < r.frequency := hlt h hin
      rcases List.mem_cons.mp hr with he2 | hin2
      · rw [he2] at hhlt
        exact Nat.lt_irrefl _ hhlt
      · have h1 : freqDescRel h r := hsorted.1 r hin2
        have h2 : r.frequency ≤ h.frequency := h1
        omega

/-- C1: on any frequency table holding exactly the seeded rows
(orders,status,50), (orders,amount,40), (customers,city,35),
(customers,email,2), (orders,id,1), (customers,id,1),
(customers,name,1), one reconciliation creates exactly
idx_orders_status, idx_orders_amount and idx_customers_city — each
whenever it is absent from the catalog at the start of the call — and
drops exactly the indexes of the six lowest-frequency rows that were
present in the catalog at the start of the call. -/
theorem c1_seed_scenario (freqTable : List FreqRow) (existing : Finset String)
    (hperm : freqTable.Perm seedFrequencies) :
    (∀ n, n ∈ (auto_manage_indexes freqTable existing).created ↔
        (n ∈ (["idx_orders_status", "idx_orders_amount", "idx_customers_city"] :
            List String) ∧ n ∉ existing)) ∧
    (∀ n, n ∈ (auto_manage_indexes freqTable existing).dropped ↔
        ((∃ r ∈ seedFrequencies.drop 1, nameOf r = n) ∧ n ∈ existing)) := by
  have hlp : (sortByFrequencyDesc freqTable).Perm seedFrequencies :=
    (List.perm_insertionSort _ _).trans hperm
  have hls : (sortByFrequencyDesc freqTable).Sorted freqDescRel :=
    List.sorted_insertionSort _ _
  obtain ⟨t1, he1, hp1, hs1⟩ := sorted_perm_eq_cons _ _ _ hlp hls (by decide)
  obtain ⟨t2, he2, hp2, hs2⟩ := sorted_perm_eq_cons _ _ _ hp1 hs1 (by decide)
  obtain ⟨t3, he3, hp3, _⟩ := sorted_perm_eq_cons _ _ _ hp2 hs2 (by decide)
  have h3 : ¬ freqTable.length < 3 := by
    have := hperm.length_eq
    simp [seedFrequencies] at this
    omega
  have hlen : (sortByFrequencyDesc freqTable).length = 7 := by
    rw [hlp.length_eq]
    rfl
  have htop : topNames freqTable =
      ["idx_orders_status", "idx_orders_amount", "idx_customers_city"] := by
    unfold topNames
    rw [he1, he2, he3]
    rfl
  have hbotperm : ((sortByFrequencyDesc freqTable).drop 1).Perm
      (seedFrequencies.drop 1) := by
    rw [he1, he2, he3]
    exact (hp3.cons _).cons _
  have hbot : bottomNames freqTable =
      ((sortByFrequencyDesc freqTable).drop 1).map nameOf := by
    show ((sortByFrequencyDesc freqTable).drop
      ((sortByFrequencyDesc freqTable).length - 6)).map nameOf = _
    rw [hlen]
  rw [auto_manage_eq _ _ h3, htop, hbot]
  constructor
  · intro n
    simp [List.mem_filter]
  · intro n
    simp only [List.mem_filter, decide_eq_true_eq, List.mem_map]
    constructor
    · rintro ⟨⟨r, hrmem, hrn⟩, hne⟩
      exact ⟨⟨r, hbotperm.subset hrmem, hrn⟩, hne⟩
    · rintro ⟨⟨r, hrmem, hrn⟩, hne⟩
      exact ⟨⟨r, hbotperm.symm.subset hrmem, hrn⟩, hne⟩

theorem c1_witness :
    seedFrequencies.Perm seedFrequencies ∧
      ("idx_orders_status" ∈
        (auto_manage_indexes seedFrequencies {"idx_customers_email"}).created) ∧
      ("idx_customers_email" ∈
        (auto_manage_indexes seedFrequencies {"idx_customers_email"}).dropped) :=
  ⟨List.Perm.refl _,
    ((c1_seed_scenario seedFrequencies {"idx_customers_email"}
        (List.Perm.refl _)).1 "idx_orders_status").mpr (by decide),
    ((c1_seed_scenario seedFrequencies {"idx_customers_email"}
        (List.Perm.refl _)).2 "idx_customers_email").mpr (by decide)⟩

/-! ### Frequency tracker lemmas -/

theorem keyMatchesB_iff (t c : String) (r : FreqRow) :
    keyMatchesB t c r = true ↔ keyMatches t c r := by
  simp [keyMatchesB, keyMatches]

theorem bumpIf_key (t c t' c' : String) (r : FreqRow) :
    keyMatchesB t' c' (bumpIf t c r) = keyMatchesB t' c' r := by
  unfold bumpIf
  split <;> rfl

theorem filter_map_bump (t c t' c' : String) (tbl : List FreqRow) :
    (tbl.map (bumpIf t c)).filter (keyMatchesB t' c') =
      (tbl.filter (keyMatchesB t' c')).map (bumpIf t c) := by
  induction tbl with
  | nil => rfl
  | cons r rs ih =>
    simp only [List.map_cons, List.filter_cons, bumpIf_key]
    by_cases h : keyMatchesB t' c' r <;> simp [h, ih]

theorem upsert_filter_ne (t c t' c' : String) (hne : ¬(t' = t ∧ c' = c))
    (tbl : List FreqRow) :
    (upsertFrequency tbl t c).filter (keyMatchesB t' c') =
      tbl.filter (keyMatchesB t' c') := by
  have hnot : ∀ r : FreqRow, keyMatchesB t' c' r = true → keyMatchesB t c r = false := by
    intro r hr
    rw [keyMatchesB_iff] at hr
    rcases hr with ⟨h1, h2⟩
    rw [← Bool.not_eq_true, keyMatchesB_iff]
    rintro ⟨h3, h4⟩
    exact hne ⟨h1 ▸ h3 ▸ rfl, h2 ▸ h4 ▸ rfl⟩
  have hmap : (tbl.map (bumpIf t c)).filter (keyMatchesB t' c') =
      tbl.filter (keyMatchesB t' c') := by
    rw [filter_map_bump]
    have hid : ∀ r ∈ tbl.filter (keyMatchesB t' c'), bumpIf t c r = r := by
      intro r hr
      have hk := (List.mem_filter.mp hr).2
      unfold bumpIf
      rw [hnot r hk]
      rfl
    rw [List.map_congr_left hid]
    simp
  unfold upsertFrequency
  by_cases h0 : (tbl.filter (keyMatchesB t c)).length = 0
  · rw [if_pos h0, List.filter_append, hmap]
    have : keyMatchesB t' c' (⟨t, c, 1⟩ : FreqRow) = false := by
      rw [← Bool.not_eq_true, keyMatchesB_iff]
      rintro ⟨h3, h4⟩
      exact hne ⟨h3.symm, h4.symm⟩
    simp [this]
  · rw [if_neg h0]
    exact hmap

theorem upsert_same_key (t c : String) (tbl : List FreqRow)
    (hkey : (tbl.filter (keyMatchesB t c)).length ≤ 1) :
    freqOf (upsertFrequency tbl t c) t c = freqOf tbl t c + 1 ∧
      ((upsertFrequency tbl t c).filter (keyMatchesB t c)).length ≤ 1 := by
  unfold upsertFrequency freqOf
  by_cases h0 : (tbl.filter (keyMatchesB t c)).length = 0
  · rw [if_pos h0]
    have hnil : tbl.filter (keyMatchesB t c) = [] := List.length_eq_zero.mp h0
    rw [List.filter_append, filter_map_bump, hnil]
    have hk : keyMatchesB t c (⟨t, c, 1⟩ : FreqRow) = true := by
      rw [keyMatchesB_iff]
      exact ⟨rfl, rfl⟩
    simp [hk]
  · rw [if_neg h0]
    have h1 : (tbl.filter (keyMatchesB t c)).length = 1 := by omega
    obtain ⟨r, hr⟩ := List.length_eq_one.mp h1
    have hrk : keyMatchesB t c r = true := by
      have hmem : r ∈ tbl.filter (keyMatchesB t c) := by
        rw [hr]
        exact List.mem_cons_self r []
      exact (List.mem_filter.mp hmem).2
    rw [filter_map_bump, hr]
    simp [bumpIf, hrk]

theorem recordNTimes_aux (tbl : List FreqRow) (t c : String)
    (hkey : (tbl.filter (keyMatchesB t c)).length ≤ 1) (n : Nat) :
    freqOf (recordNTimes tbl t c n) t c = freqOf tbl t c + n ∧
      ((recordNTimes tbl t c n).filter (keyMatchesB t c)).length ≤ 1 ∧
      (∀ t' c', ¬(t' = t ∧ c' = c) →
        (recordNTimes tbl t c n).filter (keyMatchesB t' c') =
          tbl.filter (keyMatchesB t' c')) := by
  induction n with
  | zero => exact ⟨rfl, hkey, fun _ _ _ => rfl⟩
  | succ k ih =>
    obtain ⟨ihf, ihk, ihfr⟩ := ih
    have hstep := upsert_same_key t c (recordNTimes tbl t c k) ihk
    have hrec : recordNTimes tbl t c (k + 1) =
        upsertFrequency (recordNTimes tbl t c k) t c := rfl
    refine ⟨?_, ?_, ?_⟩
    · rw [hrec, hstep.1, ihf]
      omega
    · rw [hrec]
      exact hstep.2
    · intro t' c' hne
      rw [hrec, upsert_filter_ne t c t' c' hne]
      exact ihfr t' c' hne

/-- C3: under the unique-key invariant of the frequency table, calling
`record(t,[c])` n times sequentially with no failures increases the
stored frequency of (t,c) by exactly n (an absent row counts as 0 and
is inserted at 1 on the first call) and leaves the rows of every other
(table, column) key unchanged. -/
theorem c3_record_adds_exactly_n (tbl : List FreqRow) (t c : String) (n : Nat)
    (hkey : (tbl.filter (keyMatchesB t c)).length ≤ 1) :
    freqOf (recordNTimes tbl t c n) t c = freqOf tbl t c + n ∧
      (∀ t' c', ¬(t' = t ∧ c' = c) →
        (recordNTimes tbl t c n).filter (keyMatchesB t' c') =
          tbl.filter (keyMatchesB t' c')) :=
  ⟨(recordNTimes_aux tbl t c hkey n).1, (recordNTimes_aux tbl t c hkey n).2.2⟩

theorem c3_witness :
    (([⟨"customers", "city", 7⟩] : List FreqRow).filter
        (keyMatchesB "orders" "status")).length ≤ 1 ∧
      freqOf (recordNTimes [⟨"customers", "city", 7⟩] "orders" "status" 3)
          "orders" "status" =
        freqOf [⟨"customers", "city", 7⟩] "orders" "status" + 3 :=
  ⟨by decide,
    (c3_record_adds_exactly_n [⟨"customers", "city", 7⟩] "orders" "status" 3
        (by decide)).1⟩

/-! ### Monotonicity of the frequency table under core operations -/

theorem sum_map_bump_le (t c : String) (l : List FreqRow) :
    (l.map FreqRow.frequency).sum ≤
      ((l.map (bumpIf t c)).map FreqRow.frequency).sum := by
  induction l with
  | nil => exact le_refl _
  | cons r rs ih =>
    simp only [List.map_cons, List.sum_cons]
    have hb : r.frequency ≤ (bumpIf t c r).frequency := by
      unfold bumpIf
      split
      · exact Nat.le_succ _
      · exact le_refl _
    omega

theorem upsert_freqOf_le (tbl : List FreqRow) (t c t' c' : String) :
    freqOf tbl t' c' ≤ freqOf (upsertFrequency tbl t c) t' c' := by
  by_cases hne : t' = t ∧ c' = c
  · obtain ⟨rfl, rfl⟩ := hne
    unfold upsertFrequency freqOf
    by_cases h0 : (tbl.filter (keyMatchesB t' c')).length = 0
    · rw [if_pos h0, List.length_eq_zero.mp h0]
      simp
    · rw [if_neg h0, filter_map_bump]
      exact sum_map_bump_le t' c' _
  · unfold freqOf
    rw [upsert_filter_ne t c t' c' hne]

theorem upsert_presence (tbl : List FreqRow) (t c t' c' : String)
    (h : ∃ r ∈ tbl, keyMatches t' c' r) :
    ∃ r ∈ upsertFrequency tbl t c, keyMatches t' c' r := by
  obtain ⟨r, hr, hk⟩ := h
  have hk2 : keyMatches t' c' (bumpIf t c r) := by
    rw [← keyMatchesB_iff, bumpIf_key, keyMatchesB_iff]
    exact hk
  have hmem : bumpIf t c r ∈ tbl.map (bumpIf t c) := List.mem_map_of_mem _ hr
  unfold upsertFrequency
  split
  · exact ⟨bumpIf t c r, List.mem_append_left _ hmem, hk2⟩
  · exact ⟨bumpIf t c r, hmem, hk2⟩

theorem recordColumns_freqOf_le (cols : List String) (tbl : List FreqRow)
    (t t' c' : String) :
    freqOf tbl t' c' ≤ freqOf (recordColumns tbl t cols) t' c' := by
  induction cols generalizing tbl with
  | nil => exact le_refl _
  | cons x xs ih =>
    have hstep : recordColumns tbl t (x :: xs) =
        recordColumns (upsertFrequency tbl t x) t xs := rfl
    rw [hstep]
    exact le_trans (upsert_freqOf_le tbl t x t' c') (ih _)

theorem recordColumns_presence (cols : List String) (tbl : List FreqRow)
    (t t' c' : String) (h : ∃ r ∈ tbl, keyMatches t' c' r) :
    ∃ r ∈ recordColumns tbl t cols, keyMatches t' c' r := by
  induction cols generalizing tbl with
  | nil => exact h
  | cons x xs ih => exact ih _ (upsert_presence tbl t x t' c' h)

/-- C8: along any sequence of core operations, the stored count of a
(table, column) key never decreases, a key once present is never
deleted, and a reconciliation — even one that evicts the key's index —
leaves the frequency table entirely unchanged. -/
theorem c8_frequency_rows_monotone_never_deleted :
    (∀ s s' : SysState, Relation.ReflTransGen CoreStep s s' → ∀ t c,
        freqOf s.freq t c ≤ freqOf s'.freq t c ∧
          ((∃ r ∈ s.freq, keyMatches t c r) → ∃ r ∈ s'.freq, keyMatches t c r)) ∧
      (∀ s : SysState,
        (⟨s.freq, (auto_manage_indexes s.freq s.catalog).catalog⟩ : SysState).freq =
          s.freq) := by
  constructor
  · intro s s' h t c
    induction h with
    | refl => exact ⟨le_refl _, id⟩
    | tail hsteps hstep ih =>
      cases hstep with
      | record t2 cols =>
        exact ⟨le_trans ih.1 (recordColumns_freqOf_le cols _ t2 t c),
          fun hp => recordColumns_presence cols _ t2 t c (ih.2 hp)⟩
      | reconcile => exact ih
  · intro s
    rfl

theorem c8_witness :
    freqOf (([] : List FreqRow)) "orders" "status" ≤
      freqOf (recordColumns [] "orders" ["status"]) "orders" "status" :=
  (c8_frequency_rows_monotone_never_deleted.1 ⟨[], ∅⟩
      ⟨recordColumns [] "orders" ["status"], ∅⟩
      (Relation.ReflTransGen.single (CoreStep.record ⟨[], ∅⟩ "orders" ["status"]))
      "orders" "status").1

/-! ### Focus rotation -/

theorem rotateOnce_eq_rotate {α : Type} (l : List α) : rotateOnce l = l.rotate 1 := by
  cases l with
  | nil => rfl
  | cons a t =>
    rw [List.rotate_cons_succ, List.rotate_zero]
    rfl

theorem rotateOnce_iterate {α : Type} (l : List α) (k : Nat) :
    rotateOnce^[k] l = l.rotate k := by
  induction k with
  | zero => simp
  | succ n ih =>
    rw [Function.iterate_succ_apply', ih, rotateOnce_eq_rotate, List.rotate_rotate]

theorem nodup_head?_ne_getLast? (l : List String) (hnd : l.Nodup)
    (hlen : 1 < l.length) : l.head? ≠ l.getLast? := by
  match l, hlen with
  | a :: b :: t, _ =>
    intro h
    rw [List.head?_cons, List.getLast?_cons_cons] at h
    have hmem : a ∈ b :: t := List.mem_of_getLast?_eq_some h.symm
    have := List.nodup_cons.mp hnd
    exact this.1 hmem

/-- C5: applying the focus rotation k times to a nonempty duplicate-free
cycle of length L restores the original order iff k mod L = 0; every
number of rotations yields a permutation of the cycle (no column lost or
duplicated); after any number of rotations the head (hot) and tail
(cold) columns are distinct whenever L > 1; and
`rotate_focus_once` acts on both stored cycles exactly by this
rotation. -/
theorem c5_rotation_cycle (l : List String) (hne : l ≠ []) (hnd : l.Nodup) :
    (∀ k, rotateOnce^[k] l = l ↔ k % l.length = 0) ∧
      (∀ k, (rotateOnce^[k] l).Perm l) ∧
      (1 < l.length →
        ∀ k, (rotateOnce^[k] l).head? ≠ (rotateOnce^[k] l).getLast?) ∧
      (∀ s : GenState, (rotate_focus_once s).customer_cycle =
          rotateOnce s.customer_cycle ∧
        (rotate_focus_once s).order_cycle = rotateOnce s.order_cycle) := by
  refine ⟨?_, ?_, ?_, fun s => ⟨rfl, rfl⟩⟩
  · intro k
    rw [rotateOnce_iterate, hnd.rotate_eq_self_iff]
    simp [hne]
  · intro k
    rw [rotateOnce_iterate]
    exact List.rotate_perm l k
  · intro hlen k
    rw [rotateOnce_iterate]
    apply nodup_head?_ne_getLast?
    · exact (List.rotate_perm l k).nodup_iff.mpr hnd
    · rw [List.length_rotate]
      exact hlen

theorem c5_witness :
    CUSTOMER_COLS ≠ [] ∧ CUSTOMER_COLS.Nodup ∧
      (rotateOnce^[5] CUSTOMER_COLS = CUSTOMER_COLS ↔
        5 % CUSTOMER_COLS.length = 0) ∧
      (rotateOnce^[3] ORDER_COLS).Perm ORDER_COLS :=
  ⟨by decide, by decide,
    (c5_rotation_cycle CUSTOMER_COLS (by decide) (by decide)).1 5,
    (c5_rotation_cycle ORDER_COLS (by decide) (by decide)).2.1 3⟩

/-! ### Column extraction scenarios -/

/-- C4 (counterexample): on
`UPDATE customers SET city = 'Pune' WHERE id = 5` the extractor does
not return the set containing only city and id — the quoted SET-clause
literal survives as a token. -/
theorem c4_counterexample :
    (extract_columns "UPDATE customers SET city = 'Pune' WHERE id = 5").toFinset ≠
      ({"city", "id"} : Finset String) := by
  decide

/-- C4 (amended): on
`UPDATE customers SET city = 'Pune' WHERE id = 5` the extractor returns
the set of city, id and the lower-cased quoted literal token: purely
numeric tokens (the 5) are excluded, but the SET-clause value
expression is kept as a token with its quotes. -/
theorem c4_amended_quoted_literal_kept :
    (extract_columns "UPDATE customers SET city = 'Pune' WHERE id = 5").toFinset =
      ({"city", "'pune'", "id"} : Finset String) := by
  decide

/-- C7: when extraction fails on a statement (no table found, or no
columns found), the frequency table is left completely unchanged by the
tick, while the statement is still executed against the store and still
appended to the query log. -/
theorem c7_extraction_failure_skips_frequency_update (s : SimState) (sql : String)
    (hfail : extract_table sql = "unknown" ∨ extract_columns sql = []) :
    (tick s sql).freq = s.freq ∧
      (tick s sql).executed = s.executed ++ [sql] ∧
      (tick s sql).queryLog = s.queryLog ++ [sql] := by
  refine ⟨?_, rfl, rfl⟩
  show update_frequency_counter s.freq sql = s.freq
  unfold update_frequency_counter
  rw [if_pos]
  rcases hfail with h | h
  · exact Or.inr h
  · exact Or.inl h

theorem c7_witness :
    (extract_table "hello" = "unknown" ∨ extract_columns "hello" = []) ∧
      (tick ⟨[⟨"orders", "status", 2⟩], [], []⟩ "hello").freq =
        [⟨"orders", "status", 2⟩] ∧
      (tick ⟨[⟨"orders", "status", 2⟩], [], []⟩ "hello").executed = [] ++ ["hello"] ∧
      (tick ⟨[⟨"orders", "status", 2⟩], [], []⟩ "hello").queryLog = [] ++ ["hello"] :=
  ⟨Or.inl (by decide),
    c7_extraction_failure_skips_frequency_update
      ⟨[⟨"orders", "status", 2⟩], [], []⟩ "hello" (Or.inl (by decide))⟩

/-! ### Character lemmas for the symbolic extraction proof -/

theorem uint32_le_toNat {a b : UInt32} (h : a ≤ b) : a.toNat ≤ b.toNat := by
  rw [UInt32.le_def, BitVec.le_def] at h
  exact h

theorem isWordChar_toNat (c : Char) (h : isWordChar c = true) :
    (48 ≤ c.toNat ∧ c.toNat ≤ 57) ∨ (65 ≤ c.toNat ∧ c.toNat ≤ 90) ∨
      (97 ≤ c.toNat ∧ c.toNat ≤ 122) ∨ c.toNat = 95 := by
  have h' : (((c.val ≥ 65 ∧ c.val ≤ 90) ∨ (c.val ≥ 97 ∧ c.val ≤ 122)) ∨
      (c.val ≥ 48 ∧ c.val ≤ 57)) ∨ c = '_' := by
    simpa [isWordChar, Char.isAlphanum, Char.isAlpha, Char.isUpper, Char.isLower,
      Char.isDigit, Bool.or_eq_true, Bool.and_eq_true, decide_eq_true_eq] using h
  rcases h' with ((⟨h1, h2⟩ | ⟨h1, h2⟩) | ⟨h1, h2⟩) | he
  · have g1 := uint32_le_toNat h1
    have g2 := uint32_le_toNat h2
    refine Or.inr (Or.inl ⟨?_, ?_⟩)
    · exact le_trans (by decide) g1
    · exact le_trans g2 (by decide)
  · have g1 := uint32_le_toNat h1
    have g2 := uint32_le_toNat h2
    refine Or.inr (Or.inr (Or.inl ⟨?_, ?_⟩))
    · exact le_trans (by decide) g1
    · exact le_trans g2 (by decide)
  · have g1 := uint32_le_toNat h1
    have g2 := uint32_le_toNat h2
    refine Or.inl ⟨?_, ?_⟩
    · exact le_trans (by decide) g1
    · exact le_trans g2 (by decide)
  · subst he
    exact Or.inr (Or.inr (Or.inr rfl))

theorem isPyWs_eq_false (c : Char)
    (h : c.toNat ≠ 32 ∧ c.toNat ≠ 9 ∧ c.toNat ≠ 10 ∧ c.toNat ≠ 13 ∧
      c.toNat ≠ 11 ∧ c.toNat ≠ 12) :
    isPyWs c = false := by
  unfold isPyWs
  have e1 : (c == ' ') = false := by
    rw [beq_eq_false_iff_ne]
    intro he
    exact h.1 (by rw [he]; rfl)
  have e2 : (c == '\t') = false := by
    rw [beq_eq_false_iff_ne]
    intro he
    exact h.2.1 (by rw [he]; rfl)
  have e3 : (c == '\n') = false := by
    rw [beq_eq_false_iff_ne]
    intro he
    exact h.2.2.1 (by rw [he]; rfl)
  have e4 : (c == '\r') = false := by
    rw [beq_eq_false_iff_ne]
    intro he
    exact h.2.2.2.1 (by rw [he]; rfl)
  have e5 : (c == '\x0b') = false := by
    rw [beq_eq_false_iff_ne]
    intro he
    exact h.2.2.2.2.1 (by rw [he]; rfl)
  have e6 : (c == '\x0c') = false := by
    rw [beq_eq_false_iff_ne]
    intro he
    exact h.2.2.2.2.2 (by rw [he]; rfl)
  rw [e1, e2, e3, e4, e5, e6]
  rfl

theorem toNat_ofNat_valid {m : Nat} (h : m.isValidChar) :
    (Char.ofNat m).toNat = m := by
  unfold Char.ofNat
  rw [dif_pos h]
  rfl

theorem notWs_toUpper (c : Char) (h : isWordChar c = true) :
    isPyWs c.toUpper = false := by
  have hr := isWordChar_toNat c h
  by_cases hlow : Char.toNat c ≥ 97 ∧ Char.toNat c ≤ 122
  · have hup : c.toUpper = Char.ofNat (Char.toNat c - 32) := by
      unfold Char.toUpper
      rw [if_pos hlow]
    have hv : (Char.toNat c - 32).isValidChar := Or.inl (by omega)
    have ht : (Char.ofNat (Char.toNat c - 32)).toNat = Char.toNat c - 32 :=
      toNat_ofNat_valid hv
    rw [hup]
    apply isPyWs_eq_false
    rw [ht]
    omega
  · have hup : c.toUpper = c := by
      unfold Char.toUpper
      rw [if_neg hlow]
    rw [hup]
    apply isPyWs_eq_false
    omega

/-! ### Searches fail inside whitespace-free text -/

theorem dropLit_subset (p : List Char) (s s' : List Char)
    (h : dropLit p s = some s') : ∀ c ∈ s', c ∈ s := by
  induction p generalizing s with
  | nil =>
    unfold dropLit at h
    cases h
    exact fun c hc => hc
  | cons q qs ih =>
    cases s with
    | nil => exact absurd h (by simp [dropLit])
    | cons c cs =>
      unfold dropLit at h
      by_cases hcq : c = q
      · rw [if_pos hcq] at h
        exact fun d hd => List.mem_cons_of_mem c (ih cs h d hd)
      · rw [if_neg hcq] at h
        cases h

theorem wsPlus_eq_none (s : List Char)
    (hws : ∀ c ∈ s, isPyWs c = false) : wsPlus s = none := by
  cases s with
  | nil => rfl
  | cons c cs =>
    unfold wsPlus
    simp [hws c (List.mem_cons_self c cs)]

theorem matchInsertAt_eq_none (s : List Char)
    (hws : ∀ c ∈ s, isPyWs c = false) : matchInsertAt s = none := by
  unfold matchInsertAt
  cases hdrop : dropLit kwINSERT s with
  | none => rfl
  | some s1 =>
    have hws1 : ∀ c ∈ s1, isPyWs c = false :=
      fun c hc => hws c (dropLit_subset _ _ _ hdrop c hc)
    simp [wsPlus_eq_none s1 hws1]

theorem matchUpdateAt_eq_none (s : List Char)
    (hws : ∀ c ∈ s, isPyWs c = false) : matchUpdateAt s = none := by
  unfold matchUpdateAt
  cases hdrop : dropLit kwUPDATE s with
  | none => rfl
  | some s1 =>
    have hws1 : ∀ c ∈ s1, isPyWs c = false :=
      fun c hc => hws c (dropLit_subset _ _ _ hdrop c hc)
    simp [wsPlus_eq_none s1 hws1]

theorem matchWhereAt_eq_none (s : List Char)
    (hws : ∀ c ∈ s, isPyWs c = false) : matchWhereAt s = none := by
  unfold matchWhereAt
  cases hdrop : dropLit kwWHERE s with
  | none => rfl
  | some s1 =>
    have hws1 : ∀ c ∈ s1, isPyWs c = false :=
      fun c hc => hws c (dropLit_subset _ _ _ hdrop c hc)
    simp [wsPlus_eq_none s1 hws1]

theorem matchOrderByAt_eq_none (s : List Char)
    (hws : ∀ c ∈ s, isPyWs c = false) : matchOrderByAt s = none := by
  unfold matchOrderByAt
  cases hdrop : dropLit kwORDER s with
  | none => rfl
  | some s1 =>
    have hws1 : ∀ c ∈ s1, isPyWs c = false :=
      fun c hc => hws c (dropLit_subset _ _ _ hdrop c hc)
    simp [wsPlus_eq_none s1 hws1]

theorem searchAux_eq_none {α : Type} (m : List Char → Option α)
    (hm : ∀ s, (∀ c ∈ s, isPyWs c = false) → m s = none) (s : List Char)
    (hws : ∀ c ∈ s, isPyWs c = false) : searchAux m s = none := by
  induction s with
  | nil => simpa [searchAux] using hm [] (by simp)
  | cons c cs ih =>
    unfold searchAux
    rw [hm _ hws]
    exact ih (fun d hd => hws d (List.mem_cons_of_mem c hd))

/-- C9: for every nonempty identifier table name t (word characters
only), the statement `SELECT * FROM t` — a select list that is exactly
`*` and no WHERE or ORDER BY clause — yields the empty column set. -/
theorem c9_select_star_empty (t : String)
    (hword : ∀ c ∈ t.data, isWordChar c = true) :
    extract_columns ("SELECT * FROM " ++ t) = [] := by
  have hu : ("SELECT * FROM " ++ t).data.map Char.toUpper =
      "SELECT * FROM ".data ++ t.data.map Char.toUpper := rfl
  have hTws : ∀ c ∈ t.data.map Char.toUpper, isPyWs c = false := by
    intro c hc
    obtain ⟨d, hd, rfl⟩ := List.mem_map.mp hc
    exact notWs_toUpper d (hword d hd)
  have hins : insertBlockCols ("SELECT * FROM ".data ++ t.data.map Char.toUpper)
      = [] := by
    unfold insertBlockCols
    have hstep : searchAux matchInsertAt
        ("SELECT * FROM ".data ++ t.data.map Char.toUpper) =
        searchAux matchInsertAt (t.data.map Char.toUpper) := rfl
    rw [hstep, searchAux_eq_none matchInsertAt matchInsertAt_eq_none _ hTws]
  have hupd : updateBlockCols ("SELECT * FROM ".data ++ t.data.map Char.toUpper)
      = [] := by
    unfold updateBlockCols
    have hstep : searchAux matchUpdateAt
        ("SELECT * FROM ".data ++ t.data.map Char.toUpper) =
        searchAux matchUpdateAt (t.data.map Char.toUpper) := rfl
    rw [hstep, searchAux_eq_none matchUpdateAt matchUpdateAt_eq_none _ hTws]
  have hsel : selectBlockCols ("SELECT * FROM ".data ++ t.data.map Char.toUpper)
      = [] := rfl
  have hwh : whereBlockCols ("SELECT * FROM ".data ++ t.data.map Char.toUpper)
      = [] := by
    unfold whereBlockCols
    have hstep : searchAux matchWhereAt
        ("SELECT * FROM ".data ++ t.data.map Char.toUpper) =
        searchAux matchWhereAt (t.data.map Char.toUpper) := rfl
    rw [hstep, searchAux_eq_none matchWhereAt matchWhereAt_eq_none _ hTws]
  have hord : orderBlockCols ("SELECT * FROM ".data ++ t.data.map Char.toUpper)
      = [] := by
    unfold orderBlockCols
    have hstep : searchAux matchOrderByAt
        ("SELECT * FROM ".data ++ t.data.map Char.toUpper) =
        searchAux matchOrderByAt (t.data.map Char.toUpper) := rfl
    rw [hstep, searchAux_eq_none matchOrderByAt matchOrderByAt_eq_none _ hTws]
  unfold extract_columns
  rw [hu]
  simp only [hins, hupd, hsel, hwh, hord]
  rfl

theorem c9_witness :
    (∀ c ∈ ("customers" : String).data, isWordChar c = true) ∧
      extract_columns ("SELECT * FROM " ++ "customers") = [] :=
  ⟨by decide, c9_select_star_empty "customers" (by decide)⟩
